import Mathlib

/-!
Verification development for the `session-memory` activity ledger.

The Python source (`session-memory.py`) is shallowly embedded: the SQLite
store becomes an explicit `Store` value threaded through the operations,
timestamps become natural numbers, the file system becomes explicit
functions from paths to optional byte/text content, and `hashlib.md5`
is embedded as a bytewise MD5 over `Nat` arithmetic mod 2^32.
-/
/-! ### Hex encoding -/

/-- Lower-case hexadecimal digit for `n < 16` (as produced by `hexdigest`). -/
def hexDigit (n : Nat) : Char :=
  if n < 10 then Char.ofNat (48 + n) else Char.ofNat (87 + n)

/-- Two-digit lower-case hex encoding of a byte. -/
def byteHex (b : Nat) : List Char :=
  [hexDigit (b / 16 % 16), hexDigit (b % 16)]

/-- Little-endian hex encoding of a 32-bit word, as in MD5's `hexdigest`. -/
def wordHexLE (w : Nat) : List Char :=
  byteHex (w % 256) ++ byteHex (w / 256 % 256) ++
    byteHex (w / 65536 % 256) ++ byteHex (w / 16777216 % 256)

/-! ### MD5 (embedding of `hashlib.md5(...).hexdigest()` on a byte list) -/

/-- Bitwise complement within 32 bits. -/
def not32 (x : Nat) : Nat := 4294967295 ^^^ (x % 4294967296)

/-- Left rotation of a 32-bit word by `s` places. -/
def rotl32 (x s : Nat) : Nat :=
  ((x <<< s) % 4294967296) ||| ((x % 4294967296) >>> (32 - s))

/-- The 64 MD5 round constants. -/
def md5K : List Nat :=
  [0xd76aa478, 0xe8c7b756, 0x242070db, 0xc1bdceee,
   0xf57c0faf, 0x4787c62a, 0xa8304613, 0xfd469501,
   0x698098d8, 0x8b44f7af, 0xffff5bb1, 0x895cd7be,
   0x6b901122, 0xfd987193, 0xa679438e, 0x49b40821,
   0xf61e2562, 0xc040b340, 0x265e5a51, 0xe9b6c7aa,
   0xd62f105d, 0x02441453, 0xd8a1e681, 0xe7d3fbc8,
   0x21e1cde6, 0xc33707d6, 0xf4d50d87, 0x455a14ed,
   0xa9e3e905, 0xfcefa3f8, 0x676f02d9, 0x8d2a4c8a,
   0xfffa3942, 0x8771f681, 0x6d9d6122, 0xfde5380c,
   0xa4beea44, 0x4bdecfa9, 0xf6bb4b60, 0xbebfbc70,
   0x289b7ec6, 0xeaa127fa, 0xd4ef3085, 0x04881d05,
   0xd9d4d039, 0xe6db99e5, 0x1fa27cf8, 0xc4ac5665,
   0xf4292244, 0x432aff97, 0xab9423a7, 0xfc93a039,
   0x655b59c3, 0x8f0ccc92, 0xffeff47d, 0x85845dd1,
   0x6fa87e4f, 0xfe2ce6e0, 0xa3014314, 0x4e0811a1,
   0xf7537e82, 0xbd3af235, 0x2ad7d2bb, 0xeb86d391]

/-- The 64 MD5 per-round shift amounts. -/
def md5S : List Nat :=
  [7, 12, 17, 22, 7, 12, 17, 22, 7, 12, 17, 22, 7, 12, 17, 22,
   5, 9, 14, 20, 5, 9, 14, 20, 5, 9, 14, 20, 5, 9, 14, 20,
   4, 11, 16, 23, 4, 11, 16, 23, 4, 11, 16, 23, 4, 11, 16, 23,
   6, 10, 15, 21, 6, 10, 15, 21, 6, 10, 15, 21, 6, 10, 15, 21]

/-- The MD5 nonlinear function for round `i` applied to `(x, y, z)`. -/
def md5FGHI (i x y z : Nat) : Nat :=
  if i < 16 then (x &&& y) ||| (not32 x &&& z)
  else if i < 32 then (x &&& z) ||| (y &&& not32 z)
  else if i < 48 then x ^^^ y ^^^ z
  else y ^^^ (x ||| not32 z)

/-- The MD5 message-word index used in round `i`. -/
def md5G (i : Nat) : Nat :=
  if i < 16 then i
  else if i < 32 then (5 * i + 1) % 16
  else if i < 48 then (3 * i + 5) % 16
  else (7 * i) % 16

/-- One MD5 round, state `(a, b, c, d)`. -/
def md5Round (M : Nat → Nat) (st : Nat × Nat × Nat × Nat) (i : Nat) :
    Nat × Nat × Nat × Nat :=
  let a := st.1
  let b := st.2.1
  let c := st.2.2.1
  let d := st.2.2.2
  let f := (md5FGHI i b c d + a + md5K.getD i 0 + M (md5G i)) % 4294967296
  (d, (b + rotl32 f (md5S.getD i 0)) % 4294967296, b, c)

/-- Process one 64-byte block (little-endian word decoding). -/
def md5Block (block : List Nat) (st : Nat × Nat × Nat × Nat) :
    Nat × Nat × Nat × Nat :=
  let M := fun j => block.getD (4 * j) 0 + 256 * block.getD (4 * j + 1) 0 +
    65536 * block.getD (4 * j + 2) 0 + 16777216 * block.getD (4 * j + 3) 0
  let r := (List.range 64).foldl (md5Round M) st
  ((st.1 + r.1) % 4294967296, (st.2.1 + r.2.1) % 4294967296,
   (st.2.2.1 + r.2.2.1) % 4294967296, (st.2.2.2 + r.2.2.2) % 4294967296)

/-- MD5 initial state. -/
def md5Init : Nat × Nat × Nat × Nat :=
  (0x67452301, 0xefcdab89, 0x98badcfe, 0x10325476)

/-- The 8-byte little-endian encoding of the 64-bit message bit length. -/
def lenBytes (n : Nat) : List Nat :=
  [n % 256, n / 256 % 256, n / 65536 % 256, n / 16777216 % 256,
   n / 4294967296 % 256, n / 1099511627776 % 256,
   n / 281474976710656 % 256, n / 72057594037927936 % 256]

/-- MD5 padding: `0x80`, zeros to 56 mod 64, then the bit length. -/
def md5pad (msg : List Nat) : List Nat :=
  msg ++ 128 :: List.replicate ((119 - msg.length % 64) % 64) 0 ++
    lenBytes ((8 * msg.length) % 18446744073709551616)

/-- Split a byte list into 64-byte blocks. -/
def toBlocks (l : List Nat) : List (List Nat) :=
  if h : l = [] then []
  else l.take 64 :: toBlocks (l.drop 64)
termination_by l.length
decreasing_by
  simp only [List.length_drop]
  have : 0 < l.length := List.length_pos.mpr h
  omega

/-- The final MD5 state for a byte message. -/
def md5core (msg : List Nat) : Nat × Nat × Nat × Nat :=
  (toBlocks (md5pad msg)).foldl (fun st b => md5Block b st) md5Init

/-- `hashlib.md5(bytes).hexdigest()`: 32 lower-case hex characters. -/
def md5hex (msg : List Nat) : String :=
  ⟨wordHexLE (md5core msg).1 ++ wordHexLE (md5core msg).2.1 ++
   wordHexLE (md5core msg).2.2.1 ++ wordHexLE (md5core msg).2.2.2⟩

/-- Embedding of `SessionMemory.file_hash`: read the file's bytes and
digest them; any failure to open or read the file yields `none`. The
byte-level file system is an explicit map from paths to optional contents. -/
def file_hash (disk : String → Option (List Nat)) (file_path : String) :
    Option String :=
  (disk file_path).map md5hex

/-! ### The persistent store -/

/-- A row of the `sessions` table. -/
structure Session where
  id : Nat
  project_path : String
  started_at : Nat
  last_active : Nat
  description : String
  status : String
deriving DecidableEq, Repr

/-- A row of the `file_reads` table. -/
structure FileRead where
  id : Nat
  session_id : Nat
  file_path : String
  file_hash : Option String
  read_at : Nat
  context : String
deriving DecidableEq, Repr

/-- A row of the `changes` table. -/
structure ChangeEv where
  id : Nat
  session_id : Nat
  file_path : String
  change_type : String
  description : Option String
  before_hash : Option String
  after_hash : Option String
  changed_at : Nat
deriving DecidableEq, Repr

/-- A row of the `tests` table. -/
structure TestEv where
  id : Nat
  session_id : Nat
  command : String
  result : String
  output : Option String
  run_at : Nat
deriving DecidableEq, Repr

/-- A row of the `notes` table; `tags` holds the serialized JSON text. -/
structure NoteEv where
  id : Nat
  session_id : Nat
  content : String
  tags : Option String
  created_at : Nat
deriving DecidableEq, Repr

/-- A row of the `errors` table. -/
structure ErrorEv where
  id : Nat
  session_id : Nat
  error_type : String
  error_message : String
  file_path : Option String
  context : Option String
  occurred_at : Nat
deriving DecidableEq, Repr

/-- The SQLite database: six tables.  Row ids are `length + 1` at insertion
time, which models `AUTOINCREMENT` faithfully because no row is ever
deleted. -/
structure Store where
  sessions : List Session
  file_reads : List FileRead
  changes : List ChangeEv
  tests : List TestEv
  notes : List NoteEv
  errors : List ErrorEv
deriving DecidableEq, Repr

/-- The freshly initialized (empty) database. -/
def emptyStore : Store := ⟨[], [], [], [], [], []⟩

/-! ### Session resolution (`get_current_session`) -/

/-- `ORDER BY key DESC LIMIT 1` over an already-filtered row list: the
row with the largest key; on equal keys the earlier row is kept. -/
def pickMaxBy {α : Type} (key : α → Nat) : List α → Option α
  | [] => none
  | x :: xs =>
    match pickMaxBy key xs with
    | none => some x
    | some y => if key y > key x then some y else some x

/-- The `WHERE project_path = ? AND status = 'active'` filter. -/
def activeSessionsFor (sessions : List Session) (path : String) : List Session :=
  sessions.filter (fun s => s.project_path == path && s.status == "active")

/-- `os.path.basename` / `pathlib.Path.name`: the final path component
(the characters after the last `/`). -/
def pathBasename (p : String) : String :=
  ⟨(p.data.reverse.takeWhile (fun c => c ≠ '/')).reverse⟩

/-- Python `str.lower` (ASCII case folding, as used on these inputs). -/
def strLower (s : String) : String :=
  ⟨s.data.map Char.toLower⟩

/-- Embedding of `SessionMemory.get_current_session`.  `now` is the value
of `CURRENT_TIMESTAMP`, `cwd` the working directory.  Returns the session
id together with the updated store (the touch / insert is a write). -/
def get_current_session (st : Store) (now : Nat) (cwd : String) : Nat × Store :=
  match pickMaxBy (fun s => s.last_active) (activeSessionsFor st.sessions cwd) with
  | some s =>
    let bumped :=
      st.sessions.map (fun t => if t.id = s.id then { t with last_active := now } else t)
    (s.id, { st with sessions := bumped })
  | none =>
    let sid := st.sessions.length + 1
    let fresh : Session :=
      { id := sid, project_path := cwd, started_at := now, last_active := now,
        description := "Session for " ++ pathBasename cwd, status := "active" }
    (sid, { st with sessions := st.sessions ++ [fresh] })

/-! ### Change logging (`log_change`) -/

/-- The `file_reads` rows of one `(session, path)` pair — the
`WHERE session_id = ? AND file_path = ?` filter. -/
def readsFor (st : Store) (sid : Nat) (path : String) : List FileRead :=
  st.file_reads.filter (fun fr => fr.session_id == sid && fr.file_path == path)

/-- Embedding of `SessionMemory.log_change`: resolve the session, fill
`before_hash` from the latest read-digest for this `(session, path)` when
the kind is `modify`/`delete`, compute `after_hash` fresh from disk for
`create`/`modify`, and append the row. -/
def log_change (st : Store) (disk : String → Option (List Nat)) (now : Nat)
    (cwd file_path change_type : String) (description : Option String) :
    Nat × Store :=
  let r := get_current_session st now cwd
  let session_id := r.1
  let st₁ := r.2
  let before_hash : Option String :=
    if change_type = "modify" ∨ change_type = "delete" then
      (pickMaxBy (fun fr => fr.read_at) (readsFor st₁ session_id file_path)).bind
        (fun fr => fr.file_hash)
    else none
  let after_hash : Option String :=
    if change_type = "create" ∨ change_type = "modify" then
      file_hash disk file_path
    else none
  let cid := st₁.changes.length + 1
  (cid,
   { st₁ with changes := st₁.changes ++
      [{ id := cid, session_id := session_id, file_path := file_path,
         change_type := change_type, description := description,
         before_hash := before_hash, after_hash := after_hash,
         changed_at := now }] })

/-- The active session row of `store2` (a concrete store for witnesses:
one active session for `"/repo"` and one recorded read of `"/repo/f.py"`
with digest `"abc"`). -/
def session2 : Session :=
  { id := 1, project_path := "/repo", started_at := 0, last_active := 0,
    description := "d", status := "active" }

/-- The recorded read row of `store2`. -/
def read2 : FileRead :=
  { id := 1, session_id := 1, file_path := "/repo/f.py",
    file_hash := some "abc", read_at := 3, context := "ctx" }

/-- A concrete two-row store used by witnesses. -/
def store2 : Store :=
  { sessions := [session2], file_reads := [read2],
    changes := [], tests := [], notes := [], errors := [] }

/-- A concrete byte-level disk used by witnesses. -/
def disk2 : String → Option (List Nat) :=
  fun p => if p = "/repo/f.py" then some [120, 61, 49] else none

/-! ### Context inference (`infer_context`) -/

/-- Python's `needle in haystack` substring test, on character lists. -/
def containsSub (hay needle : List Char) : Bool :=
  hay.tails.any (fun t => needle.isPrefixOf t)

/-- The text-level file system seen by `infer_context`: optional text
content (`none` models any failure to open or read the file) and the
`is_dir` predicate. -/
structure TextFS where
  content : String → Option String
  isDir : String → Bool

/-- The extension → description table (`contexts` in the source). -/
def contextsTable : List (String × String) :=
  [(".py", "Examining Python code"),
   (".js", "Examining JavaScript code"),
   (".ts", "Examining TypeScript code"),
   (".jsx", "Examining React component"),
   (".tsx", "Examining React TypeScript component"),
   (".css", "Examining styles"),
   (".scss", "Examining SCSS styles"),
   (".html", "Examining HTML markup"),
   (".json", "Examining configuration/data"),
   (".md", "Examining documentation"),
   (".yml", "Examining YAML configuration"),
   (".yaml", "Examining YAML configuration"),
   (".toml", "Examining TOML configuration"),
   (".dockerfile", "Examining Docker configuration"),
   (".sql", "Examining database schema/queries"),
   (".sh", "Examining shell script"),
   (".bash", "Examining bash script"),
   (".zsh", "Examining zsh script")]

/-- The special filename substring → description table (`special_files`),
in dictionary insertion order. -/
def specialFiles : List (String × String) :=
  [("package.json", "Examining project dependencies and scripts"),
   ("requirements.txt", "Examining Python dependencies"),
   ("cargo.toml", "Examining Rust project configuration"),
   ("dockerfile", "Examining Docker container setup"),
   ("makefile", "Examining build configuration"),
   ("readme", "Reading project documentation"),
   ("changelog", "Examining project history"),
   ("license", "Examining project license"),
   (".gitignore", "Examining git ignore patterns"),
   (".env", "Examining environment configuration"),
   ("config", "Examining configuration file")]

/-- `pathlib.PurePath.suffix`: the final dot-suffix of the name, empty
when the only dot is leading or trailing. -/
def pathSuffix (name : String) : String :=
  let cs := name.data
  match (cs.enum.filter (fun p => p.2 = '.')).getLast? with
  | some (i, _) => if 0 < i ∧ i < cs.length - 1 then ⟨cs.drop i⟩ else ""
  | none => ""

/-- Python `\s` (ASCII whitespace). -/
def isPyWs (c : Char) : Bool :=
  c = ' ' || c = '\t' || c = '\n' || c = '\x0d' || c = '\x0b' || c = '\x0c'

/-- Python `\w` (ASCII word character). -/
def isPyWord (c : Char) : Bool :=
  ('a' ≤ c && c ≤ 'z') || ('A' ≤ c && c ≤ 'Z') || ('0' ≤ c && c ≤ '9') || c = '_'

/-- After a keyword: skip further whitespace, then require a word char —
the `\s*\w` part of `kw\s+\w`. -/
def wsStarWord : List Char → Bool
  | [] => false
  | c :: rest => if isPyWs c then wsStarWord rest else isPyWord c

/-- `\s+\w` : at least one whitespace char, then a word char. -/
def wsPlusWord : List Char → Bool
  | [] => false
  | c :: rest => isPyWs c && wsStarWord rest

/-- `re.search(kw + r'\s+\w+', text)`: the keyword occurs somewhere,
followed by whitespace and a word character. -/
def searchKwWs (kw : List Char) : List Char → Bool
  | [] => false
  | c :: rest =>
    (kw.isPrefixOf (c :: rest) && wsPlusWord ((c :: rest).drop kw.length)) ||
      searchKwWs kw rest

/-- `''.join(f.readlines()[:10])`: the prefix of the text up to and
including the `n`-th newline. -/
def firstLinesAux : Nat → List Char → List Char
  | 0, _ => []
  | _, [] => []
  | n + 1, c :: rest =>
    c :: (if c = '\n' then firstLinesAux n rest else firstLinesAux (n + 1) rest)

/-- Embedding of `SessionMemory.infer_context`. -/
def infer_context (fs : TextFS) (file_path : String) : String :=
  let filename_lower := strLower (pathBasename file_path)
  match specialFiles.find? (fun pr => containsSub filename_lower.data pr.1.data) with
  | some pr => pr.2
  | none =>
    let suffix := strLower (pathSuffix (pathBasename file_path))
    match contextsTable.find? (fun pr => pr.1 == suffix) with
    | some pr =>
      let ext : String := ⟨suffix.data.drop 1⟩
      match fs.content file_path with
      | some text =>
        let first_lines := strLower ⟨firstLinesAux 10 text.data⟩
        if containsSub filename_lower.data "test".data ||
            containsSub filename_lower.data "spec".data then
          "Examining " ++ ext ++ " test file"
        else if containsSub filename_lower.data "api".data ||
            containsSub filename_lower.data "endpoint".data then
          "Examining " ++ ext ++ " API code"
        else if containsSub filename_lower.data "component".data then
          "Examining " ++ ext ++ " component"
        else if containsSub filename_lower.data "util".data ||
            containsSub filename_lower.data "helper".data then
          "Examining " ++ ext ++ " utility functions"
        else if containsSub filename_lower.data "config".data ||
            containsSub filename_lower.data "setting".data then
          "Examining " ++ ext ++ " configuration"
        else if searchKwWs "class".data first_lines.data then
          "Examining " ++ ext ++ " class definition"
        else if searchKwWs "function".data first_lines.data ||
            searchKwWs "def".data first_lines.data then
          "Examining " ++ ext ++ " function definitions"
        else if containsSub first_lines.data "import".data ||
            containsSub first_lines.data "from".data then
          "Examining " ++ ext ++ " module imports and setup"
        else pr.2
      | none => pr.2
    | none =>
      if fs.isDir file_path then "Examining directory structure"
      else "Examining " ++ (if suffix ≠ "" then (⟨suffix.data.drop 1⟩ : String) else "file")

/-! ### JSON serialization of note tags (`json.dumps` on a string list) -/

/-- Four-digit lower-case hex encoding, as in `\uXXXX` escapes. -/
def hex4 (n : Nat) : List Char :=
  [hexDigit (n / 4096 % 16), hexDigit (n / 256 % 16),
   hexDigit (n / 16 % 16), hexDigit (n % 16)]

/-- `json.dumps` escaping of one character (`ensure_ascii=True`):
named escapes, `\uXXXX` for other controls and non-ASCII, surrogate
pairs above the BMP. -/
def jsonEscapeChar (c : Char) : List Char :=
  if c = '"' then ['\\', '"']
  else if c = '\\' then ['\\', '\\']
  else if c = '\x08' then ['\\', 'b']
  else if c = '\x0c' then ['\\', 'f']
  else if c = '\n' then ['\\', 'n']
  else if c = '\r' then ['\\', 'r']
  else if c = '\t' then ['\\', 't']
  else if c.toNat < 32 then '\\' :: 'u' :: hex4 c.toNat
  else if c.toNat ≤ 126 then [c]
  else if c.toNat < 65536 then '\\' :: 'u' :: hex4 c.toNat
  else ('\\' :: 'u' :: hex4 (55296 + (c.toNat - 65536) / 1024)) ++
    ('\\' :: 'u' :: hex4 (56320 + (c.toNat - 65536) % 1024))

/-- The escaped body of a JSON string literal. -/
def jsonEscape (s : String) : List Char :=
  (s.data.map jsonEscapeChar).flatten

/-- A JSON string literal. -/
def jsonDumpStr (s : String) : List Char :=
  '"' :: jsonEscape s ++ ['"']

/-- The comma-separated items of a dumped array (separator `", "`,
`json.dumps`' default). -/
def jsonDumpItems : List String → List Char
  | [] => []
  | [t] => jsonDumpStr t
  | t :: ts => jsonDumpStr t ++ ',' :: ' ' :: jsonDumpItems ts

/-- `json.dumps` of a list of strings. -/
def json_dumps (ts : List String) : String :=
  ⟨'[' :: jsonDumpItems ts ++ [']']⟩

/-! ### The remaining append operations -/

/-- Embedding of `SessionMemory.log_read`. -/
def log_read (st : Store) (disk : String → Option (List Nat)) (tfs : TextFS)
    (now : Nat) (cwd file_path : String) (context : Option String) :
    Nat × Store :=
  let r := get_current_session st now cwd
  let fh := file_hash disk file_path
  let ctx := match context with
    | some c => c
    | none => infer_context tfs file_path
  let rid := r.2.file_reads.length + 1
  (rid,
   { r.2 with file_reads := r.2.file_reads ++
      [{ id := rid, session_id := r.1, file_path := file_path,
         file_hash := fh, read_at := now, context := ctx }] })

/-- Embedding of `SessionMemory.log_test`. -/
def log_test (st : Store) (now : Nat) (cwd command result : String)
    (output : Option String) : Nat × Store :=
  let r := get_current_session st now cwd
  let tid := r.2.tests.length + 1
  (tid,
   { r.2 with tests := r.2.tests ++
      [{ id := tid, session_id := r.1, command := command, result := result,
         output := output, run_at := now }] })

/-- Embedding of `SessionMemory.add_note`: `json.dumps(tags) if tags else
None` — both a missing and an empty tag list store null. -/
def add_note (st : Store) (now : Nat) (cwd content : String)
    (tags : Option (List String)) : Nat × Store :=
  let r := get_current_session st now cwd
  let tags_json : Option String :=
    match tags with
    | some ts => if ts.isEmpty then none else some (json_dumps ts)
    | none => none
  let nid := r.2.notes.length + 1
  (nid,
   { r.2 with notes := r.2.notes ++
      [{ id := nid, session_id := r.1, content := content,
         tags := tags_json, created_at := now }] })

/-- Embedding of `SessionMemory.log_error`. -/
def log_error (st : Store) (now : Nat)
    (cwd error_type error_message : String)
    (file_path context : Option String) : Nat × Store :=
  let r := get_current_session st now cwd
  let eid := r.2.errors.length + 1
  (eid,
   { r.2 with errors := r.2.errors ++
      [{ id := eid, session_id := r.1, error_type := error_type,
         error_message := error_message, file_path := file_path,
         context := context, occurred_at := now }] })

/-! ### Analytics (`get_session_analytics`) -/

/-- The `file_reads` rows of one session. -/
def sessionReads (st : Store) (sid : Nat) : List FileRead :=
  st.file_reads.filter (fun x => x.session_id == sid)

/-- The `changes` rows of one session. -/
def sessionChanges (st : Store) (sid : Nat) : List ChangeEv :=
  st.changes.filter (fun x => x.session_id == sid)

/-- The `tests` rows of one session. -/
def sessionTests (st : Store) (sid : Nat) : List TestEv :=
  st.tests.filter (fun x => x.session_id == sid)

/-- The `notes` rows of one session. -/
def sessionNotes (st : Store) (sid : Nat) : List NoteEv :=
  st.notes.filter (fun x => x.session_id == sid)

/-- The `errors` rows of one session. -/
def sessionErrors (st : Store) (sid : Nat) : List ErrorEv :=
  st.errors.filter (fun x => x.session_id == sid)

/-- The `CASE WHEN file_path LIKE '%.py' ...` bucket label (SQLite `LIKE`
is ASCII case-insensitive). -/
def fileTypeLabel (p : String) : String :=
  let lp := (strLower p).data
  if ".py".data.isSuffixOf lp then "Python"
  else if ".js".data.isSuffixOf lp then "JavaScript"
  else if ".ts".data.isSuffixOf lp then "TypeScript"
  else if ".jsx".data.isSuffixOf lp then "React"
  else if ".tsx".data.isSuffixOf lp then "React TS"
  else if ".css".data.isSuffixOf lp then "CSS"
  else if ".md".data.isSuffixOf lp then "Markdown"
  else if ".json".data.isSuffixOf lp then "JSON"
  else "Other"

/-- The `UNION ALL` of the session's read and change file paths. -/
def fileTypePaths (st : Store) (sid : Nat) : List String :=
  (sessionReads st sid).map (fun r => r.file_path) ++
    (sessionChanges st sid).map (fun c => c.file_path)

/-- Descending-count comparison of histogram buckets. -/
def countGe (x y : String × Nat) : Prop := y.2 ≤ x.2

instance : DecidableRel countGe := fun x y => Nat.decLe y.2 x.2

instance : IsTotal (String × Nat) countGe := ⟨fun a b => le_total b.2 a.2⟩

instance : IsTrans (String × Nat) countGe := ⟨fun _ _ _ h1 h2 => le_trans h2 h1⟩

/-- `GROUP BY file_type ORDER BY count DESC LIMIT 5` over the labelled
paths. -/
def fileTypesHistogram (st : Store) (sid : Nat) : List (String × Nat) :=
  let labels := (fileTypePaths st sid).map fileTypeLabel
  (List.insertionSort countGe
    (labels.dedup.map (fun l => (l, labels.count l)))).take 5

/-- The analytics record returned by `get_session_analytics`;
`test_success_rate` is `none` exactly when the key is absent from the
Python dict. -/
structure AnalyticsRes where
  duration_minutes : Int
  files_read : Nat
  changes_made : Nat
  tests_run : Nat
  notes_added : Nat
  errors_logged : Nat
  test_success_rate : Option ℚ
  file_types : List (String × Nat)
deriving Repr

/-- Embedding of `SessionMemory.get_session_analytics`. -/
def get_session_analytics (st : Store) (now : Nat) (cwd : String) :
    AnalyticsRes :=
  let r := get_current_session st now cwd
  let sid := r.1
  let st' := r.2
  let duration : Int :=
    match st'.sessions.find? (fun s => s.id == sid) with
    | some s => ((s.last_active : Int) - (s.started_at : Int)) / 60
    | none => 0
  let testRows := sessionTests st' sid
  let total := testRows.length
  let passes := (testRows.filter (fun t => t.result == "pass")).length
  { duration_minutes := duration,
    files_read := (sessionReads st' sid).length,
    changes_made := (sessionChanges st' sid).length,
    tests_run := total,
    notes_added := (sessionNotes st' sid).length,
    errors_logged := (sessionErrors st' sid).length,
    test_success_rate :=
      if 0 < total then some ((passes : ℚ) / (total : ℚ) * 100) else none,
    file_types := fileTypesHistogram st' sid }

/-- Rounding to one decimal place, as in the `:.1f` display of the rate. -/
def round1dec (q : ℚ) : ℚ := ((round (10 * q) : ℤ) : ℚ) / 10

/-! ### Queries (`query_session`) -/

/-- The summary branch of `query_session` (no kind given): the five
per-kind counts, in the order reads, changes, tests, notes, errors. -/
def query_session_summary (st : Store) (now : Nat) (cwd : String) :
    List (String × Nat) :=
  let r := get_current_session st now cwd
  [("reads", (sessionReads r.2 r.1).length),
   ("changes", (sessionChanges r.2 r.1).length),
   ("tests", (sessionTests r.2 r.1).length),
   ("notes", (sessionNotes r.2 r.1).length),
   ("errors", (sessionErrors r.2 r.1).length)]

/-- Descending-timestamp comparison of note rows. -/
def noteDesc (x y : NoteEv) : Prop := y.created_at ≤ x.created_at

instance : DecidableRel noteDesc := fun x y => Nat.decLe y.created_at x.created_at

instance : IsTotal NoteEv noteDesc := ⟨fun a b => le_total b.created_at a.created_at⟩

instance : IsTrans NoteEv noteDesc := ⟨fun _ _ _ h1 h2 => le_trans h2 h1⟩

/-- The `notes` branch of `query_session`: rows of the session ordered by
`created_at` descending, truncated to `limit`, projected to
`(content, tags, created_at)`. -/
def query_session_notes (st : Store) (now : Nat) (cwd : String)
    (limit : Nat) : List (String × Option String × Nat) :=
  let r := get_current_session st now cwd
  ((List.insertionSort noteDesc (sessionNotes r.2 r.1)).take limit).map
    (fun n => (n.content, n.tags, n.created_at))

/-- A concrete disk for the C3 witness: two paths with identical bytes,
one missing path. -/
def disk3 : String → Option (List Nat) :=
  fun p => if p = "gone" then none else some [120, 61, 49]

/-- The store after logging three tests (`pass`, `pass`, `fail`) from a
fresh database. -/
def storeTests3 : Store :=
  (log_test (log_test (log_test emptyStore 0 "/repo" "pytest" "pass"
    none).2 0 "/repo" "pytest" "pass" none).2 0 "/repo" "pytest" "fail"
    none).2

/-! ### JSON parsing of note tags (`json.loads` on a string-list payload) -/

/-- Hexadecimal digit value (both cases accepted, as by `json.loads`). -/
def hexVal (c : Char) : Option Nat :=
  if '0' ≤ c ∧ c ≤ '9' then some (c.toNat - 48)
  else if 'a' ≤ c ∧ c ≤ 'f' then some (c.toNat - 87)
  else if 'A' ≤ c ∧ c ≤ 'F' then some (c.toNat - 55)
  else none

/-- The value of four hex digits. -/
def hex4Val (a b c d : Char) : Option Nat :=
  match hexVal a, hexVal b, hexVal c, hexVal d with
  | some va, some vb, some vc, some vd =>
    some (va * 4096 + vb * 256 + vc * 16 + vd)
  | _, _, _, _ => none

/-- The single-character JSON escapes. -/
def escCharJson (e : Char) : Option Char :=
  if e = '"' then some '"'
  else if e = '\\' then some '\\'
  else if e = '/' then some '/'
  else if e = 'b' then some '\x08'
  else if e = 'f' then some '\x0c'
  else if e = 'n' then some '\n'
  else if e = 'r' then some '\r'
  else if e = 't' then some '\t'
  else none

/-- The outcome of decoding one element of a JSON string body. -/
inductive JStep where
  | done (rest : List Char)
  | chr (c : Char) (rest : List Char)
  | err
deriving DecidableEq, Repr

/-- Decode one element of a JSON string body (after the opening quote):
the closing quote, an escape (surrogate pairs combined, lone surrogates
rejected), or a literal character (raw controls rejected). -/
def parseJStep : List Char → JStep
  | [] => .err
  | c :: rest =>
    if c = '"' then .done rest
    else if c = '\\' then
      match rest with
      | [] => .err
      | e :: rest₁ =>
        if e = 'u' then
          match rest₁ with
          | a :: b :: cc :: d :: rest₂ =>
            match hex4Val a b cc d with
            | none => .err
            | some v =>
              if 55296 ≤ v ∧ v ≤ 56319 then
                match rest₂ with
                | e₁ :: e₂ :: e₃ :: e₄ :: e₅ :: e₆ :: rest₃ =>
                  if e₁ = '\\' ∧ e₂ = 'u' then
                    match hex4Val e₃ e₄ e₅ e₆ with
                    | none => .err
                    | some w =>
                      if 56320 ≤ w ∧ w ≤ 57343 then
                        .chr (Char.ofNat
                          (65536 + (v - 55296) * 1024 + (w - 56320))) rest₃
                      else .err
                  else .err
                | _ => .err
              else if 56320 ≤ v ∧ v ≤ 57343 then .err
              else .chr (Char.ofNat v) rest₂
          | _ => .err
        else
          match escCharJson e with
          | none => .err
          | some ec => .chr ec rest₁
    else if c.toNat < 32 then .err
    else .chr c rest

/-- Fuelled loop decoding a JSON string body step by step. -/
def parseJStrRec : Nat → List Char → Option (List Char × List Char)
  | 0, _ => none
  | fuel + 1, l =>
    match parseJStep l with
    | .done rest => some ([], rest)
    | .chr c rest =>
      match parseJStrRec fuel rest with
      | some (s, r) => some (c :: s, r)
      | none => none
    | .err => none

/-- Parse a JSON string body (after the opening quote): returns the
decoded characters and the remaining input. -/
def parseJStr (l : List Char) : Option (List Char × List Char) :=
  parseJStrRec (l.length + 1) l

/-- Parse a complete JSON string literal (expects the opening quote). -/
def parseJStrTop : List Char → Option (List Char × List Char)
  | [] => none
  | c :: rest => if c = '"' then parseJStr rest else none

/-- Skip JSON whitespace. -/
def skipJsonWs : List Char → List Char
  | [] => []
  | c :: rest =>
    if c = ' ' ∨ c = '\t' ∨ c = '\n' ∨ c = '\r' then skipJsonWs rest
    else c :: rest

/-- Parse the remaining items of a JSON string array (fuelled loop:
either `]` ends the array, or `,` is followed by another string). -/
def parseJItems : Nat → List Char → Option (List (List Char) × List Char)
  | 0, _ => none
  | fuel + 1, l =>
    match skipJsonWs l with
    | [] => none
    | c :: rest =>
      if c = ']' then some ([], rest)
      else if c = ',' then
        match parseJStrTop (skipJsonWs rest) with
        | some (s, rest₂) =>
          match parseJItems fuel rest₂ with
          | some (ss, r) => some (s :: ss, r)
          | none => none
        | none => none
      else none

/-- `json.loads` restricted to a JSON array of strings (how the CLI reads
back the stored `tags` column). -/
def json_loads_strlist (str : String) : Option (List String) :=
  match skipJsonWs str.data with
  | [] => none
  | c :: rest =>
    if c = '[' then
      match skipJsonWs rest with
      | [] => none
      | d :: rest₁ =>
        if d = ']' then
          if (skipJsonWs rest₁).isEmpty then some [] else none
        else
          match parseJStrTop (d :: rest₁) with
          | some (s, rest₂) =>
            match parseJItems (rest₂.length + 1) rest₂ with
            | some (ss, r) =>
              if (skipJsonWs r).isEmpty then
                some ((s :: ss).map (fun cs => (⟨cs⟩ : String)))
              else none
            | none => none
          | none => none
    else none

/-- The dumped text after a complete item: either the closing bracket or
a `", "` separator, the next item, and the rest. -/
def jsonTailRep : List String → List Char
  | [] => [']']
  | t :: ts => ',' :: ' ' :: (jsonDumpStr t ++ jsonTailRep ts)

/-- The note row appended by `add_note` for a non-empty tag list. -/
def addedNote (st : Store) (now : Nat) (cwd content : String)
    (ts : List String) : NoteEv :=
  { id := st.notes.length + 1,
    session_id := (get_current_session st now cwd).1,
    content := content, tags := some (json_dumps ts), created_at := now }

theorem byteHex_length (b : Nat) : (byteHex b).length = 2 := rfl

theorem wordHexLE_length (w : Nat) : (wordHexLE w).length = 8 := by
  simp [wordHexLE, byteHex]

theorem md5hex_length (msg : List Nat) : (md5hex msg).length = 32 := by
  show (md5hex msg).data.length = 32
  simp [md5hex, wordHexLE_length]

theorem pickMaxBy_eq_none_iff {α : Type} (key : α → Nat) (l : List α) :
    pickMaxBy key l = none ↔ l = [] := by
  cases l with
  | nil => simp [pickMaxBy]
  | cons a as =>
    simp only [pickMaxBy]
    cases hrec : pickMaxBy key as with
    | none => simp
    | some y => simp only []; split <;> simp

theorem pickMaxBy_mem {α : Type} {key : α → Nat} :
    ∀ {l : List α} {x : α}, pickMaxBy key l = some x → x ∈ l := by
  intro l
  induction l with
  | nil => intro x h; simp [pickMaxBy] at h
  | cons a as ih =>
    intro x h
    simp only [pickMaxBy] at h
    cases hrec : pickMaxBy key as with
    | none => rw [hrec] at h; simp at h; simp [h]
    | some y =>
      rw [hrec] at h
      simp only [] at h
      split at h
      · simp at h; subst h; exact List.mem_cons_of_mem _ (ih hrec)
      · simp at h; simp [h]

theorem pickMaxBy_le {α : Type} {key : α → Nat} :
    ∀ {l : List α} {x : α}, pickMaxBy key l = some x →
      ∀ y ∈ l, key y ≤ key x := by
  intro l
  induction l with
  | nil => intro x _ y hy; simp at hy
  | cons a as ih =>
    intro x h y hy
    simp only [pickMaxBy] at h
    cases hrec : pickMaxBy key as with
    | none =>
      rw [hrec] at h
      simp at h
      subst h
      rcases List.mem_cons.mp hy with rfl | hy'
      · exact le_refl _
      · rw [pickMaxBy_eq_none_iff] at hrec; subst hrec; simp at hy'
    | some z =>
      rw [hrec] at h
      simp only [] at h
      split at h
      · simp at h
        subst h
        rcases List.mem_cons.mp hy with rfl | hy'
        · omega
        · exact ih hrec y hy'
      · simp at h
        subst h
        rcases List.mem_cons.mp hy with rfl | hy'
        · exact le_refl _
        · have := ih hrec y hy'
          omega

theorem pickMaxBy_strictMax {α : Type} {key : α → Nat} {l : List α} {x : α}
    (hx : x ∈ l) (hmax : ∀ y ∈ l, y ≠ x → key y < key x) :
    pickMaxBy key l = some x := by
  cases h : pickMaxBy key l with
  | none =>
    rw [pickMaxBy_eq_none_iff] at h
    subst h
    simp at hx
  | some z =>
    have hz : z ∈ l := pickMaxBy_mem h
    have hle : key x ≤ key z := pickMaxBy_le h x hx
    by_cases hzx : z = x
    · rw [hzx]
    · have := hmax z hz hzx
      omega

/-- Touching a session's `last_active` does not change which sessions the
`project_path`/`status` filter selects. -/
theorem active_after_touch (sessions : List Session) (path : String)
    (sid now : Nat) :
    activeSessionsFor
      (sessions.map (fun t => if t.id = sid then { t with last_active := now } else t))
      path =
    (activeSessionsFor sessions path).map
      (fun t => if t.id = sid then { t with last_active := now } else t) := by
  unfold activeSessionsFor
  rw [@List.filter_map _ _ (fun s => s.project_path == path && s.status == "active")
    (fun t => if t.id = sid then { t with last_active := now } else t) sessions]
  congr 1
  apply List.filter_congr
  intro t _
  by_cases h : t.id = sid <;> simp [h]

/-- Resolving twice in sequence returns the same session id, whenever the
first call's clock is ahead of every stored matching `last_active` and
ids are unique. -/
theorem get_current_session_twice (st : Store) (now₁ now₂ : Nat) (cwd : String)
    (hlt : ∀ t ∈ activeSessionsFor st.sessions cwd, t.last_active < now₁)
    (hnodup : (st.sessions.map Session.id).Nodup) :
    (get_current_session ((get_current_session st now₁ cwd).2) now₂ cwd).1 =
      (get_current_session st now₁ cwd).1 := by
  cases hpick : pickMaxBy (fun s => s.last_active)
      (activeSessionsFor st.sessions cwd) with
  | none =>
    have hempty := (pickMaxBy_eq_none_iff _ _).mp hpick
    simp only [get_current_session, hpick]
    have hact : activeSessionsFor
        (st.sessions ++
          [{ id := st.sessions.length + 1, project_path := cwd,
             started_at := now₁, last_active := now₁,
             description := "Session for " ++ pathBasename cwd,
             status := "active" }]) cwd =
        [{ id := st.sessions.length + 1, project_path := cwd,
           started_at := now₁, last_active := now₁,
           description := "Session for " ++ pathBasename cwd,
           status := "active" }] := by
      unfold activeSessionsFor at hempty ⊢
      rw [List.filter_append, hempty]
      simp
    simp only [hact, pickMaxBy]
  | some s =>
    have hs : s ∈ activeSessionsFor st.sessions cwd := pickMaxBy_mem hpick
    have hsmem : s ∈ st.sessions := (List.mem_filter.mp hs).1
    have hinj := List.inj_on_of_nodup_map hnodup
    simp only [get_current_session, hpick]
    have hact := active_after_touch st.sessions cwd s.id now₁
    have hmem' : ({ s with last_active := now₁ } : Session) ∈
        activeSessionsFor
          (st.sessions.map
            (fun t => if t.id = s.id then { t with last_active := now₁ } else t))
          cwd := by
      rw [hact]
      exact List.mem_map.mpr ⟨s, hs, by simp⟩
    have hmax : ∀ u ∈ activeSessionsFor
        (st.sessions.map
          (fun t => if t.id = s.id then { t with last_active := now₁ } else t))
        cwd, u ≠ ({ s with last_active := now₁ } : Session) →
        u.last_active < ({ s with last_active := now₁ } : Session).last_active := by
      intro u hu hne
      rw [hact] at hu
      obtain ⟨t, ht, rfl⟩ := List.mem_map.mp hu
      have htmem : t ∈ st.sessions := (List.mem_filter.mp ht).1
      by_cases hts : t = s
      · subst hts
        simp at hne
      · have hid : t.id ≠ s.id := fun he => hts (hinj htmem hsmem he)
        simp only [hid, if_neg hid]
        exact hlt t ht
    have hpick2 := pickMaxBy_strictMax hmem' hmax
    simp only [get_current_session, hpick2]

/-- C2: session resolution returns the most-recently-active matching
session (touching its `last_active`), creates a fresh active session when
none matches, and is idempotent on the returned id across two calls. -/
theorem get_current_session_resolution :
    (∀ (st : Store) (now : Nat) (cwd : String),
      activeSessionsFor st.sessions cwd = [] →
        (get_current_session st now cwd).1 = st.sessions.length + 1 ∧
        ∃ s : Session,
          (get_current_session st now cwd).2.sessions = st.sessions ++ [s] ∧
          s.id = st.sessions.length + 1 ∧ s.project_path = cwd ∧
          s.status = "active" ∧ s.last_active = now ∧ s.started_at = now) ∧
    (∀ (st : Store) (now : Nat) (cwd : String) (s : Session),
      s ∈ activeSessionsFor st.sessions cwd →
      (∀ t ∈ activeSessionsFor st.sessions cwd, t ≠ s →
        t.last_active < s.last_active) →
        (get_current_session st now cwd).1 = s.id ∧
        { s with last_active := now } ∈ (get_current_session st now cwd).2.sessions) ∧
    (∀ (st : Store) (now₁ now₂ : Nat) (cwd : String),
      (∀ t ∈ activeSessionsFor st.sessions cwd, t.last_active < now₁) →
      (st.sessions.map Session.id).Nodup →
        (get_current_session ((get_current_session st now₁ cwd).2) now₂ cwd).1 =
          (get_current_session st now₁ cwd).1) := by
  refine ⟨?_, ?_, ?_⟩
  · intro st now cwd h
    simp only [get_current_session, h, pickMaxBy]
    exact ⟨trivial, _, rfl, rfl, rfl, rfl, rfl, rfl⟩
  · intro st now cwd s hs hmax
    have hpick : pickMaxBy (fun s => s.last_active)
        (activeSessionsFor st.sessions cwd) = some s :=
      pickMaxBy_strictMax hs hmax
    simp only [get_current_session, hpick]
    refine ⟨trivial, ?_⟩
    have hsmem : s ∈ st.sessions := (List.mem_filter.mp hs).1
    exact List.mem_map.mpr ⟨s, hsmem, by simp⟩
  · exact get_current_session_twice

/-- Witness for C2 at concrete inputs: on the empty store, resolving
`"/repo"` creates session 1, and resolving twice returns the same id. -/
theorem get_current_session_resolution_witness :
    (get_current_session emptyStore 5 "/repo").1 = 1 ∧
    (get_current_session ((get_current_session emptyStore 5 "/repo").2) 9
      "/repo").1 = (get_current_session emptyStore 5 "/repo").1 := by
  refine ⟨?_, ?_⟩
  · exact (get_current_session_resolution.1 emptyStore 5 "/repo" rfl).1
  · exact get_current_session_resolution.2.2 emptyStore 5 9 "/repo"
      (by intro t ht; simp [activeSessionsFor, emptyStore] at ht) (by simp [emptyStore])

/-- The row appended by `log_change` (the last row of `changes`). -/
theorem log_change_last (st : Store) (disk : String → Option (List Nat))
    (now : Nat) (cwd file_path change_type : String)
    (description : Option String) :
    (log_change st disk now cwd file_path change_type description).2.changes.getLast? =
      some
        { id := (get_current_session st now cwd).2.changes.length + 1,
          session_id := (get_current_session st now cwd).1,
          file_path := file_path, change_type := change_type,
          description := description,
          before_hash :=
            if change_type = "modify" ∨ change_type = "delete" then
              (pickMaxBy (fun fr => fr.read_at)
                (readsFor (get_current_session st now cwd).2
                  (get_current_session st now cwd).1 file_path)).bind
                (fun fr => fr.file_hash)
            else none,
          after_hash :=
            if change_type = "create" ∨ change_type = "modify" then
              file_hash disk file_path
            else none,
          changed_at := now } := by
  simp only [log_change, List.getLast?_concat]

/-- C1: the digest discipline of change logging.  For `modify`/`delete`
the stored before-digest is the digest of the most recent read event for
the resolved `(session, path)` pair (null when no such read exists); for
`create` it is null; for `create`/`modify` the after-digest is computed
fresh from disk; for `delete` it is null. -/
theorem log_change_digest_discipline
    (st : Store) (disk : String → Option (List Nat)) (now : Nat)
    (cwd file_path : String) (description : Option String) :
    (∀ ct, (ct = "modify" ∨ ct = "delete") →
      (readsFor (get_current_session st now cwd).2
          (get_current_session st now cwd).1 file_path = [] →
        ∃ c, (log_change st disk now cwd file_path ct description).2.changes.getLast? =
            some c ∧ c.before_hash = none) ∧
      (∀ r ∈ readsFor (get_current_session st now cwd).2
          (get_current_session st now cwd).1 file_path,
        (∀ r' ∈ readsFor (get_current_session st now cwd).2
            (get_current_session st now cwd).1 file_path,
          r' ≠ r → r'.read_at < r.read_at) →
        ∃ c, (log_change st disk now cwd file_path ct description).2.changes.getLast? =
            some c ∧ c.before_hash = r.file_hash)) ∧
    (∃ c, (log_change st disk now cwd file_path "create" description).2.changes.getLast? =
        some c ∧ c.before_hash = none) ∧
    (∀ ct, (ct = "create" ∨ ct = "modify") →
      ∃ c, (log_change st disk now cwd file_path ct description).2.changes.getLast? =
          some c ∧ c.after_hash = file_hash disk file_path) ∧
    (∃ c, (log_change st disk now cwd file_path "delete" description).2.changes.getLast? =
        some c ∧ c.after_hash = none) := by
  refine ⟨?_, ?_, ?_, ?_⟩
  · intro ct hct
    constructor
    · intro hempty
      refine ⟨_, log_change_last st disk now cwd file_path ct description, ?_⟩
      simp [hct, hempty, pickMaxBy]
    · intro r hr hmaxr
      refine ⟨_, log_change_last st disk now cwd file_path ct description, ?_⟩
      have hpick := pickMaxBy_strictMax hr hmaxr
      simp [hct, hpick]
  · refine ⟨_, log_change_last st disk now cwd file_path "create" description, ?_⟩
    simp
  · intro ct hct
    refine ⟨_, log_change_last st disk now cwd file_path ct description, ?_⟩
    simp [hct]
  · refine ⟨_, log_change_last st disk now cwd file_path "delete" description, ?_⟩
    simp

/-- Witness for C1: on `store2`, a `modify` of `/repo/f.py` stores
before-digest `"abc"` (the recorded read digest) and a fresh after-digest,
and a `delete` of an unseen path stores null before- and after-digests. -/
theorem log_change_digest_discipline_witness :
    (∃ c, (log_change store2 disk2 7 "/repo" "/repo/f.py" "modify" none).2.changes.getLast? =
        some c ∧ c.before_hash = some "abc") ∧
    (∃ c, (log_change store2 disk2 7 "/repo" "/repo/f.py" "modify" none).2.changes.getLast? =
        some c ∧ c.after_hash = file_hash disk2 "/repo/f.py") ∧
    (∃ c, (log_change emptyStore disk2 1 "/repo" "/x.py" "delete" none).2.changes.getLast? =
        some c ∧ c.after_hash = none) := by
  refine ⟨?_, ?_, ?_⟩
  · exact ((log_change_digest_discipline store2 disk2 7 "/repo" "/repo/f.py"
        none).1 "modify" (Or.inl rfl)).2 read2 (by decide) (by decide)
  · exact (log_change_digest_discipline store2 disk2 7 "/repo" "/repo/f.py"
        none).2.2.1 "modify" (Or.inr rfl)
  · exact (log_change_digest_discipline emptyStore disk2 1 "/repo" "/x.py"
        none).2.2.2

/-- C4: the inference rules fire in strict priority order, first match
wins: a special filename wins over the extension rules whatever the
content; within the extension refinement the filename "test" rule wins
over the "api" rule and over every content-based rule; a filename "api"
rule wins over the content-based rules; an unknown extension falls back;
and for `user_api_test.py` containing `def test_login():` the result is
the `py` test-file refinement. -/
theorem infer_context_priority :
    (∀ fs : TextFS, infer_context fs "readme.py" = "Reading project documentation") ∧
    (∀ (content : String) (d : String → Bool),
      infer_context ⟨fun _ => some content, d⟩ "handler_api_test.py" =
        "Examining py test file") ∧
    (∀ (content : String) (d : String → Bool),
      infer_context ⟨fun _ => some content, d⟩ "routes_api.py" =
        "Examining py API code") ∧
    (∀ c : Option String,
      infer_context ⟨fun _ => c, fun _ => false⟩ "data.xyz" = "Examining xyz") ∧
    infer_context ⟨fun _ => some "def test_login():\n", fun _ => false⟩
      "user_api_test.py" = "Examining py test file" := by
  refine ⟨fun fs => rfl, fun content d => rfl, fun content d => rfl, ?_, rfl⟩
  intro c
  cases c with
  | none => rfl
  | some t => rfl

/-- C9: when the extension is in the table but the file cannot be read,
every refinement — the filename-based ones included — is skipped and the
plain extension description is returned. -/
theorem infer_context_unreadable_skips_refinements
    (fs : TextFS) (path : String) (entry : String × String)
    (hspec : specialFiles.find?
      (fun pr => containsSub (strLower (pathBasename path)).data pr.1.data) = none)
    (htab : contextsTable.find?
      (fun pr => pr.1 == strLower (pathSuffix (pathBasename path))) = some entry)
    (hun : fs.content path = none) :
    infer_context fs path = entry.2 := by
  simp only [infer_context, hspec, htab, hun]

/-- Witness for C9: `user_test.py` is unreadable, yet its name contains
"test"; the result is still the plain Python description. -/
theorem infer_context_unreadable_skips_refinements_witness :
    infer_context ⟨fun _ => none, fun _ => false⟩ "user_test.py" =
      "Examining Python code" :=
  infer_context_unreadable_skips_refinements ⟨fun _ => none, fun _ => false⟩
    "user_test.py" (".py", "Examining Python code") rfl rfl rfl

/-- C3: the digest is a fixed-length function of byte content alone, and
unreadable files hash to null. -/
theorem file_hash_content_determined :
    (∀ (disk : String → Option (List Nat)) (p q : String),
      disk p = disk q → file_hash disk p = file_hash disk q) ∧
    (∀ (disk : String → Option (List Nat)) (p : String),
      disk p = none → file_hash disk p = none) ∧
    (∀ (disk : String → Option (List Nat)) (p : String) (bs : List Nat),
      disk p = some bs →
        file_hash disk p = some (md5hex bs) ∧ (md5hex bs).length = 32) := by
  refine ⟨?_, ?_, ?_⟩
  · intro disk p q h
    simp [file_hash, h]
  · intro disk p h
    simp [file_hash, h]
  · intro disk p bs h
    exact ⟨by simp [file_hash, h], md5hex_length bs⟩

/-- Witness for C3: identical bytes at two paths give identical digests;
the missing path hashes to null; the digest has 32 characters. -/
theorem file_hash_content_determined_witness :
    file_hash disk3 "a.py" = file_hash disk3 "b.py" ∧
    file_hash disk3 "gone" = none ∧
    file_hash disk3 "a.py" = some (md5hex [120, 61, 49]) ∧
    (md5hex [120, 61, 49]).length = 32 := by
  refine ⟨file_hash_content_determined.1 disk3 "a.py" "b.py" rfl,
    file_hash_content_determined.2.1 disk3 "gone" rfl,
    (file_hash_content_determined.2.2 disk3 "a.py" [120, 61, 49] rfl).1,
    (file_hash_content_determined.2.2 disk3 "a.py" [120, 61, 49] rfl).2⟩

/-- The populated-rate branch of the analytics computation: with at least
one test row, the rate equals `100 * pass_count / total_count`. -/
theorem test_success_rate_formula (st : Store) (now : Nat) (cwd : String)
    (h : sessionTests (get_current_session st now cwd).2
      (get_current_session st now cwd).1 ≠ []) :
    (get_session_analytics st now cwd).test_success_rate =
      some (100 *
        (((sessionTests (get_current_session st now cwd).2
            (get_current_session st now cwd).1).filter
              (fun t => t.result == "pass")).length : ℚ) /
        ((sessionTests (get_current_session st now cwd).2
          (get_current_session st now cwd).1).length : ℚ)) := by
  have hlen : 0 < (sessionTests (get_current_session st now cwd).2
      (get_current_session st now cwd).1).length := List.length_pos.mpr h
  simp only [get_session_analytics, if_pos hlen]
  exact congrArg some (by ring)

/-- C5: `test_success_rate` is absent exactly when the session has no
test events, otherwise equals `100 * pass_count / total_count`; after
logging pass, pass, fail, `tests_run` is 3 and the rate rounds to 66.7. -/
theorem test_success_rate_spec :
    (∀ (st : Store) (now : Nat) (cwd : String),
      sessionTests (get_current_session st now cwd).2
          (get_current_session st now cwd).1 = [] →
        (get_session_analytics st now cwd).test_success_rate = none) ∧
    (∀ (st : Store) (now : Nat) (cwd : String),
      sessionTests (get_current_session st now cwd).2
          (get_current_session st now cwd).1 ≠ [] →
        (get_session_analytics st now cwd).test_success_rate =
          some (100 *
            (((sessionTests (get_current_session st now cwd).2
                (get_current_session st now cwd).1).filter
                  (fun t => t.result == "pass")).length : ℚ) /
            ((sessionTests (get_current_session st now cwd).2
              (get_current_session st now cwd).1).length : ℚ))) ∧
    (get_session_analytics storeTests3 0 "/repo").tests_run = 3 ∧
    (get_session_analytics storeTests3 0 "/repo").test_success_rate =
      some (200 / 3) ∧
    round1dec (200 / 3) = 667 / 10 := by
  refine ⟨?_, test_success_rate_formula, ?_, ?_, ?_⟩
  · intro st now cwd h
    simp [get_session_analytics, h]
  · rfl
  · rw [test_success_rate_formula storeTests3 0 "/repo" (by decide)]
    have hp : ((sessionTests (get_current_session storeTests3 0 "/repo").2
        (get_current_session storeTests3 0 "/repo").1).filter
          (fun t => t.result == "pass")).length = 2 := by decide
    have hl : ((sessionTests (get_current_session storeTests3 0 "/repo").2
        (get_current_session storeTests3 0 "/repo").1).length) = 3 := by decide
    rw [hp, hl]
    norm_num
  · have h667 : round ((10 : ℚ) * (200 / 3)) = 667 := by
      rw [round_eq]
      norm_num
    rw [round1dec, h667]
    norm_num

/-- Witness for C5: a fresh store has no test rows, so the rate is absent. -/
theorem test_success_rate_spec_witness :
    (get_session_analytics emptyStore 0 "/w").test_success_rate = none :=
  test_success_rate_spec.1 emptyStore 0 "/w" rfl

/-- C6: the five per-kind counts of the kind-omitted summary query agree,
kind by kind, with the analytics counts over the same store state, and so
do their totals. -/
theorem summary_counts_agree (st : Store) (now : Nat) (cwd : String) :
    query_session_summary st now cwd =
      [("reads", (get_session_analytics st now cwd).files_read),
       ("changes", (get_session_analytics st now cwd).changes_made),
       ("tests", (get_session_analytics st now cwd).tests_run),
       ("notes", (get_session_analytics st now cwd).notes_added),
       ("errors", (get_session_analytics st now cwd).errors_logged)] ∧
    ((query_session_summary st now cwd).map (fun p => p.2)).sum =
      (get_session_analytics st now cwd).files_read +
        (get_session_analytics st now cwd).changes_made +
        (get_session_analytics st now cwd).tests_run +
        (get_session_analytics st now cwd).notes_added +
        (get_session_analytics st now cwd).errors_logged := by
  constructor
  · rfl
  · simp only [query_session_summary, get_session_analytics, List.map_cons,
      List.map_nil, List.sum_cons, List.sum_nil]
    omega

/-- Structural properties of the file-type histogram: at most five
buckets, sorted by descending count, each bucket counts the matching
labelled paths, and the bucket counts sum to at most the number of
labelled paths. -/
theorem fileTypesHistogram_spec (st : Store) (sid : Nat) :
    (fileTypesHistogram st sid).length ≤ 5 ∧
    List.Pairwise countGe (fileTypesHistogram st sid) ∧
    (∀ e ∈ fileTypesHistogram st sid,
      e.2 = ((fileTypePaths st sid).map fileTypeLabel).count e.1 ∧
        e.1 ∈ (fileTypePaths st sid).map fileTypeLabel) ∧
    ((fileTypesHistogram st sid).map (fun p => p.2)).sum ≤
      (fileTypePaths st sid).length := by
  refine ⟨?_, ?_, ?_, ?_⟩
  · simp only [fileTypesHistogram, List.length_take]
    exact min_le_left _ _
  · exact List.Pairwise.sublist (List.take_sublist 5 _)
      (List.sorted_insertionSort countGe _)
  · intro e he
    simp only [fileTypesHistogram] at he
    have h1 := List.mem_of_mem_take he
    have h2 := (List.perm_insertionSort countGe _).mem_iff.mp h1
    obtain ⟨lbl, hlbl, rfl⟩ := List.mem_map.mp h2
    exact ⟨rfl, List.mem_dedup.mp hlbl⟩
  · simp only [fileTypesHistogram]
    have hsub : List.Sublist
        (((List.insertionSort countGe
          (((fileTypePaths st sid).map fileTypeLabel).dedup.map
            (fun l => (l, ((fileTypePaths st sid).map fileTypeLabel).count l)))).take
              5).map (fun p => p.2))
        ((List.insertionSort countGe
          (((fileTypePaths st sid).map fileTypeLabel).dedup.map
            (fun l => (l, ((fileTypePaths st sid).map fileTypeLabel).count l)))).map
          (fun p => p.2)) :=
      List.Sublist.map _ (List.take_sublist 5 _)
    have h1 := List.Sublist.sum_le_sum hsub (fun a _ => Nat.zero_le a)
    have h2 := List.Perm.sum_eq ((List.perm_insertionSort countGe
      (((fileTypePaths st sid).map fileTypeLabel).dedup.map
        (fun l => (l, ((fileTypePaths st sid).map fileTypeLabel).count l)))).map
      (fun p => p.2))
    have h3 : ((((fileTypePaths st sid).map fileTypeLabel).dedup.map
        (fun l => (l, ((fileTypePaths st sid).map fileTypeLabel).count l))).map
        (fun p => p.2)).sum =
        ((fileTypePaths st sid).map fileTypeLabel).length := by
      rw [List.map_map]
      exact List.sum_map_count_dedup_eq_length _
    rw [List.length_map] at h3
    omega

/-- C7: the analytics `file_types` histogram buckets the union (with
multiplicity) of the session's read and change paths by the fixed
extension-to-label mapping, in descending count order, with at most five
entries whose counts sum to at most reads + changes. -/
theorem file_types_histogram_spec (st : Store) (now : Nat) (cwd : String) :
    (get_session_analytics st now cwd).file_types.length ≤ 5 ∧
    List.Pairwise countGe (get_session_analytics st now cwd).file_types ∧
    (∀ e ∈ (get_session_analytics st now cwd).file_types,
      e.2 = ((fileTypePaths (get_current_session st now cwd).2
          (get_current_session st now cwd).1).map fileTypeLabel).count e.1 ∧
        e.1 ∈ (fileTypePaths (get_current_session st now cwd).2
          (get_current_session st now cwd).1).map fileTypeLabel) ∧
    ((get_session_analytics st now cwd).file_types.map (fun p => p.2)).sum ≤
      (fileTypePaths (get_current_session st now cwd).2
        (get_current_session st now cwd).1).length ∧
    (fileTypeLabel "a.py" = "Python" ∧ fileTypeLabel "a.js" = "JavaScript" ∧
      fileTypeLabel "a.ts" = "TypeScript" ∧ fileTypeLabel "a.jsx" = "React" ∧
      fileTypeLabel "b.Tsx" = "React TS" ∧ fileTypeLabel "a.css" = "CSS" ∧
      fileTypeLabel "a.md" = "Markdown" ∧ fileTypeLabel "a.json" = "JSON" ∧
      fileTypeLabel "a.txt" = "Other") := by
  have h := fileTypesHistogram_spec (get_current_session st now cwd).2
    (get_current_session st now cwd).1
  exact ⟨h.1, h.2.1, h.2.2.1, h.2.2.2,
    rfl, rfl, rfl, rfl, rfl, rfl, rfl, rfl, rfl⟩

/-- Witness for C7: a concrete evaluation — on `store2` the histogram is
the single bucket `("Python", 1)` and its properties hold there. -/
theorem file_types_histogram_spec_witness :
    (get_session_analytics store2 7 "/repo").file_types = [("Python", 1)] ∧
    (("Python", 1) : String × Nat).2 =
      ((fileTypePaths (get_current_session store2 7 "/repo").2
        (get_current_session store2 7 "/repo").1).map fileTypeLabel).count
        ("Python" : String) := by
  refine ⟨by decide, ?_⟩
  exact ((file_types_histogram_spec store2 7 "/repo").2.2.1 ("Python", 1)
    (by decide)).1

/-- C10: an explicitly empty tag list is stored exactly like absent tags
(`json.dumps(tags) if tags else None` — the empty list is falsy), so the
two are indistinguishable on read-back. -/
theorem empty_tags_stored_null (st : Store) (now : Nat)
    (cwd content : String) :
    add_note st now cwd content (some []) = add_note st now cwd content none :=
  rfl

theorem hexVal_hexDigit : ∀ m, m < 16 → hexVal (hexDigit m) = some m := by
  decide

theorem hex4Val_hexDigits (v : Nat) (hv : v < 65536) :
    hex4Val (hexDigit (v / 4096 % 16)) (hexDigit (v / 256 % 16))
      (hexDigit (v / 16 % 16)) (hexDigit (v % 16)) = some v := by
  unfold hex4Val
  rw [hexVal_hexDigit _ (Nat.mod_lt _ (by norm_num)),
    hexVal_hexDigit _ (Nat.mod_lt _ (by norm_num)),
    hexVal_hexDigit _ (Nat.mod_lt _ (by norm_num)),
    hexVal_hexDigit _ (Nat.mod_lt _ (by norm_num))]
  simp only [Option.some.injEq]
  omega

/-- The validity range of a character's code point. -/
theorem char_toNat_valid (c : Char) :
    c.toNat < 55296 ∨ (57343 < c.toNat ∧ c.toNat < 1114112) := c.valid

/-- The `\uXXXX` spine of the step decoder. -/
theorem parseJStep_u_eq (a b cc d : Char) (rest₂ : List Char) :
    parseJStep ('\\' :: 'u' :: a :: b :: cc :: d :: rest₂) =
      (match hex4Val a b cc d with
       | none => JStep.err
       | some v =>
         if 55296 ≤ v ∧ v ≤ 56319 then
           match rest₂ with
           | e₁ :: e₂ :: e₃ :: e₄ :: e₅ :: e₆ :: rest₃ =>
             if e₁ = '\\' ∧ e₂ = 'u' then
               match hex4Val e₃ e₄ e₅ e₆ with
               | none => JStep.err
               | some w =>
                 if 56320 ≤ w ∧ w ≤ 57343 then
                   JStep.chr (Char.ofNat
                     (65536 + (v - 55296) * 1024 + (w - 56320))) rest₃
                 else JStep.err
             else JStep.err
           | _ => JStep.err
         else if 56320 ≤ v ∧ v ≤ 57343 then JStep.err
         else JStep.chr (Char.ofNat v) rest₂) := rfl

/-- Decoding one dumped character returns exactly that character. -/
theorem parseJStep_escape (c : Char) (suffix : List Char) :
    parseJStep (jsonEscapeChar c ++ suffix) = JStep.chr c suffix := by
  by_cases h1 : c = '"'
  · subst h1; rfl
  by_cases h2 : c = '\\'
  · subst h2; rfl
  by_cases h3 : c = '\x08'
  · subst h3; rfl
  by_cases h4 : c = '\x0c'
  · subst h4; rfl
  by_cases h5 : c = '\n'
  · subst h5; rfl
  by_cases h6 : c = '\r'
  · subst h6; rfl
  by_cases h7 : c = '\t'
  · subst h7; rfl
  by_cases h8 : c.toNat < 32
  · have hesc : jsonEscapeChar c = '\\' :: 'u' :: hex4 c.toNat := by
      simp only [jsonEscapeChar, if_neg h1, if_neg h2, if_neg h3, if_neg h4,
        if_neg h5, if_neg h6, if_neg h7, if_pos h8]
    rw [hesc]
    simp only [hex4, List.cons_append, List.nil_append]
    rw [parseJStep_u_eq, hex4Val_hexDigits c.toNat (by omega)]
    simp only [if_neg (by omega : ¬(55296 ≤ c.toNat ∧ c.toNat ≤ 56319)),
      if_neg (by omega : ¬(56320 ≤ c.toNat ∧ c.toNat ≤ 57343)),
      Char.ofNat_toNat]
  by_cases h9 : c.toNat ≤ 126
  · have hesc : jsonEscapeChar c = [c] := by
      simp only [jsonEscapeChar, if_neg h1, if_neg h2, if_neg h3, if_neg h4,
        if_neg h5, if_neg h6, if_neg h7, if_neg h8, if_pos h9]
    rw [hesc]
    simp only [List.cons_append, List.nil_append, parseJStep,
      if_neg h1, if_neg h2, if_neg h8]
  by_cases h10 : c.toNat < 65536
  · have hval := char_toNat_valid c
    have hesc : jsonEscapeChar c = '\\' :: 'u' :: hex4 c.toNat := by
      simp only [jsonEscapeChar, if_neg h1, if_neg h2, if_neg h3, if_neg h4,
        if_neg h5, if_neg h6, if_neg h7, if_neg h8, if_neg h9, if_pos h10]
    rw [hesc]
    simp only [hex4, List.cons_append, List.nil_append]
    rw [parseJStep_u_eq, hex4Val_hexDigits c.toNat h10]
    simp only [if_neg (by omega : ¬(55296 ≤ c.toNat ∧ c.toNat ≤ 56319)),
      if_neg (by omega : ¬(56320 ≤ c.toNat ∧ c.toNat ≤ 57343)),
      Char.ofNat_toNat]
  · have hval := char_toNat_valid c
    have hdiv : (c.toNat - 65536) / 1024 ≤ 1023 := by omega
    have hmod : (c.toNat - 65536) % 1024 ≤ 1023 := by
      have := Nat.mod_lt (c.toNat - 65536) (show 0 < 1024 by norm_num)
      omega
    have hesc : jsonEscapeChar c =
        ('\\' :: 'u' :: hex4 (55296 + (c.toNat - 65536) / 1024)) ++
          ('\\' :: 'u' :: hex4 (56320 + (c.toNat - 65536) % 1024)) := by
      simp only [jsonEscapeChar, if_neg h1, if_neg h2, if_neg h3, if_neg h4,
        if_neg h5, if_neg h6, if_neg h7, if_neg h8, if_neg h9, if_neg h10]
    rw [hesc]
    simp only [hex4, List.cons_append, List.nil_append]
    rw [parseJStep_u_eq, hex4Val_hexDigits _ (by omega)]
    simp only [if_pos (by omega : 55296 ≤ 55296 + (c.toNat - 65536) / 1024 ∧
      55296 + (c.toNat - 65536) / 1024 ≤ 56319)]
    rw [hex4Val_hexDigits _ (by omega)]
    simp only [if_pos (show ('\\' : Char) = '\\' ∧ ('u' : Char) = 'u' from ⟨rfl, rfl⟩),
      if_pos (by omega : 56320 ≤ 56320 + (c.toNat - 65536) % 1024 ∧
        56320 + (c.toNat - 65536) % 1024 ≤ 57343)]
    have harg : 65536 + (55296 + (c.toNat - 65536) / 1024 - 55296) * 1024 +
        (56320 + (c.toNat - 65536) % 1024 - 56320) = c.toNat := by omega
    rw [harg, Char.ofNat_toNat]
    simp

theorem jsonEscapeChar_length_pos (c : Char) : 0 < (jsonEscapeChar c).length := by
  simp only [jsonEscapeChar]
  repeat' split
  all_goals simp

theorem parseJStrRec_dumpBody :
    ∀ (s : List Char) (suffix : List Char) (fuel : Nat), s.length < fuel →
      parseJStrRec fuel ((s.map jsonEscapeChar).flatten ++ '"' :: suffix) =
        some (s, suffix) := by
  intro s
  induction s with
  | nil =>
    intro suffix fuel hf
    cases fuel with
    | zero => omega
    | succ f => simp [parseJStrRec, parseJStep]
  | cons c s' ih =>
    intro suffix fuel hf
    cases fuel with
    | zero => simp at hf
    | succ f =>
      simp only [List.map_cons, List.flatten_cons, List.append_assoc]
      simp only [parseJStrRec, parseJStep_escape]
      rw [ih suffix f (by simp at hf; omega)]

theorem parseJStr_dumpBody (s : List Char) (suffix : List Char) :
    parseJStr ((s.map jsonEscapeChar).flatten ++ '"' :: suffix) =
      some (s, suffix) := by
  apply parseJStrRec_dumpBody
  have h : s.length ≤ ((s.map jsonEscapeChar).flatten).length := by
    induction s with
    | nil => simp
    | cons c s' ih =>
      simp only [List.map_cons, List.flatten_cons, List.length_append,
        List.length_cons]
      have := jsonEscapeChar_length_pos c
      omega
  simp only [List.length_append, List.length_cons]
  omega

theorem parseJStrTop_dump (t : String) (suffix : List Char) :
    parseJStrTop (jsonDumpStr t ++ suffix) = some (t.data, suffix) := by
  have hshape : jsonDumpStr t ++ suffix =
      '"' :: (jsonEscape t ++ ('"' :: suffix)) := by
    simp [jsonDumpStr, List.append_assoc]
  rw [hshape]
  simp only [parseJStrTop, if_pos rfl]
  exact parseJStr_dumpBody t.data suffix

theorem jsonDumpItems_tail :
    ∀ (t : String) (ts : List String),
      jsonDumpItems (t :: ts) ++ [']'] = jsonDumpStr t ++ jsonTailRep ts
  | _, [] => by simp [jsonDumpItems, jsonTailRep]
  | t, u :: us => by
    have ih := jsonDumpItems_tail u us
    simp only [jsonDumpItems, jsonTailRep, List.append_assoc,
      List.cons_append] at ih ⊢
    rw [ih]

theorem jsonTailRep_length : ∀ ts : List String,
    ts.length < (jsonTailRep ts).length
  | [] => by simp [jsonTailRep]
  | t :: ts => by
    have ih := jsonTailRep_length ts
    simp only [jsonTailRep, List.length_cons, List.length_append]
    omega

theorem skipJsonWs_dumpStr (t : String) (y : List Char) :
    skipJsonWs (jsonDumpStr t ++ y) = jsonDumpStr t ++ y := by
  have hshape : jsonDumpStr t ++ y = '"' :: (jsonEscape t ++ ('"' :: y)) := by
    simp [jsonDumpStr, List.append_assoc]
  rw [hshape]
  simp [skipJsonWs]

theorem parseJItems_tailRep :
    ∀ (ts : List String) (fuel : Nat), ts.length < fuel →
      parseJItems fuel (jsonTailRep ts) = some (ts.map String.data, []) := by
  intro ts
  induction ts with
  | nil =>
    intro fuel hf
    cases fuel with
    | zero => omega
    | succ f => simp [parseJItems, jsonTailRep, skipJsonWs]
  | cons t ts' ih =>
    intro fuel hf
    cases fuel with
    | zero => simp at hf
    | succ f =>
      simp only [jsonTailRep, parseJItems]
      rw [show skipJsonWs (',' :: ' ' :: (jsonDumpStr t ++ jsonTailRep ts')) =
        ',' :: ' ' :: (jsonDumpStr t ++ jsonTailRep ts') from by
          simp [skipJsonWs]]
      simp only [reduceIte]
      rw [show skipJsonWs (' ' :: (jsonDumpStr t ++ jsonTailRep ts')) =
        skipJsonWs (jsonDumpStr t ++ jsonTailRep ts') from by
          simp [skipJsonWs]]
      rw [skipJsonWs_dumpStr, parseJStrTop_dump t (jsonTailRep ts')]
      simp only [reduceIte]
      rw [ih f (by simp at hf; omega)]
      simp

/-- Full round trip: parsing a dumped string list returns the original
list (order and duplicates preserved). -/
theorem json_loads_dumps (ts : List String) :
    json_loads_strlist (json_dumps ts) = some ts := by
  cases ts with
  | nil => rfl
  | cons t ts' =>
    show json_loads_strlist ⟨'[' :: (jsonDumpItems (t :: ts') ++ [']'])⟩ = _
    simp only [json_loads_strlist]
    rw [show skipJsonWs ('[' :: (jsonDumpItems (t :: ts') ++ [']'])) =
      '[' :: (jsonDumpItems (t :: ts') ++ [']']) from by simp [skipJsonWs]]
    simp only [reduceIte]
    rw [jsonDumpItems_tail t ts', skipJsonWs_dumpStr]
    have hshape : jsonDumpStr t ++ jsonTailRep ts' =
        '"' :: (jsonEscape t ++ ('"' :: jsonTailRep ts')) := by
      simp [jsonDumpStr, List.append_assoc]
    rw [hshape]
    simp only [reduceIte]
    rw [show parseJStrTop ('"' :: (jsonEscape t ++ ('"' :: jsonTailRep ts'))) =
      some (t.data, jsonTailRep ts') from by
        simp only [parseJStrTop, if_pos rfl]
        exact parseJStr_dumpBody t.data (jsonTailRep ts')]
    simp only [reduceIte]
    rw [parseJItems_tailRep ts' ((jsonTailRep ts').length + 1)
      (by have := jsonTailRep_length ts'; omega)]
    have hmk : (fun cs : List Char => (⟨cs⟩ : String)) ∘ String.data = id :=
      funext fun s => rfl
    rw [if_neg (by decide : ¬('"' : Char) = ']')]
    simp only [List.map_cons, List.map_map, hmk, List.map_id,
      Option.some.injEq]
    show (if (skipJsonWs []).isEmpty = true
      then some (({ data := t.data } : String) :: ts') else none) =
        some (t :: ts')
    rfl

/-- Session resolution never touches the `notes` table. -/
theorem get_current_session_notes_eq (st : Store) (now : Nat) (cwd : String) :
    (get_current_session st now cwd).2.notes = st.notes := by
  unfold get_current_session
  cases pickMaxBy (fun s => s.last_active) (activeSessionsFor st.sessions cwd) <;>
    rfl

/-- The resolved session id depends only on the `sessions` table. -/
theorem get_current_session_fst_congr (st₁ st₂ : Store) (now : Nat)
    (cwd : String) (h : st₁.sessions = st₂.sessions) :
    (get_current_session st₁ now cwd).1 = (get_current_session st₂ now cwd).1 := by
  unfold get_current_session
  rw [h]
  cases pickMaxBy (fun s => s.last_active) (activeSessionsFor st₂.sessions cwd) <;>
    rfl

/-- Sorting by descending `created_at` puts a strictly most recent note
first. -/
theorem insertionSort_noteDesc_head {l : List NoteEv} {n : NoteEv}
    (hn : n ∈ l) (hmax : ∀ m ∈ l, m ≠ n → m.created_at < n.created_at) :
    (List.insertionSort noteDesc l).head? = some n := by
  cases h : List.insertionSort noteDesc l with
  | nil =>
    have hp := List.perm_insertionSort noteDesc l
    rw [h] at hp
    have : l = [] := (hp.symm).eq_nil
    subst this
    simp at hn
  | cons a tail =>
    have hp := List.perm_insertionSort noteDesc l
    rw [h] at hp
    have hs := List.sorted_insertionSort noteDesc l
    rw [h] at hs
    have ha : a ∈ l := hp.mem_iff.mp (List.mem_cons_self a tail)
    have hnmem : n ∈ a :: tail := hp.mem_iff.mpr hn
    by_cases han : a = n
    · simp [han]
    · rcases List.mem_cons.mp hnmem with heq | htail
      · exact absurd heq.symm han
      · have hle : noteDesc a n := (List.pairwise_cons.mp hs).1 n htail
        have hlt : a.created_at < n.created_at := hmax a ha han
        unfold noteDesc at hle
        omega

theorem head?_take {α : Type} (l : List α) (k : Nat) (hk : 0 < k) :
    (l.take k).head? = l.head? := by
  cases k with
  | zero => omega
  | succ k' => cases l <;> simp

/-- C8: a note added with a non-empty tag list stores the tags as an
ordered JSON list; querying notes returns that note first with its tags
text parsing back to exactly the original list, in insertion order;
absent tags store null. -/
theorem note_tags_roundtrip :
    (∀ (st : Store) (now : Nat) (cwd content : String) (ts : List String),
      ts ≠ [] →
        (add_note st now cwd content (some ts)).2.notes.getLast? =
          some (addedNote st now cwd content ts) ∧
        (addedNote st now cwd content ts).tags = some (json_dumps ts) ∧
        json_loads_strlist (json_dumps ts) = some ts) ∧
    (∀ (st : Store) (now₁ now₂ : Nat) (cwd content : String)
        (ts : List String) (limit : Nat),
      ts ≠ [] → 0 < limit →
      (∀ t ∈ activeSessionsFor st.sessions cwd, t.last_active < now₁) →
      (st.sessions.map Session.id).Nodup →
      (∀ m ∈ st.notes, m.created_at < now₁) →
        (query_session_notes (add_note st now₁ cwd content (some ts)).2
            now₂ cwd limit).head? =
          some (content, some (json_dumps ts), now₁) ∧
        json_loads_strlist (json_dumps ts) = some ts) ∧
    (∀ (st : Store) (now : Nat) (cwd content : String),
      ∃ n : NoteEv,
        (add_note st now cwd content none).2.notes.getLast? = some n ∧
        n.tags = none) := by
  have hempty : ∀ ts : List String, ts ≠ [] → ts.isEmpty = false := by
    intro ts hts
    cases ts with
    | nil => exact absurd rfl hts
    | cons a as => rfl
  have hlast : ∀ (st : Store) (now : Nat) (cwd content : String)
      (ts : List String), ts ≠ [] →
      (add_note st now cwd content (some ts)).2.notes.getLast? =
        some (addedNote st now cwd content ts) := by
    intro st now cwd content ts hts
    simp only [add_note, List.getLast?_concat, hempty ts hts,
      Bool.false_eq_true, if_false, addedNote,
      get_current_session_notes_eq st now cwd]
  refine ⟨?_, ?_, ?_⟩
  · intro st now cwd content ts hts
    exact ⟨hlast st now cwd content ts hts, rfl, json_loads_dumps ts⟩
  · intro st now₁ now₂ cwd content ts limit hts hlim hlt hnodup hnotes
    refine ⟨?_, json_loads_dumps ts⟩
    have hpres1 : (get_current_session st now₁ cwd).2.notes = st.notes :=
      get_current_session_notes_eq st now₁ cwd
    have htagsA : (add_note st now₁ cwd content (some ts)).2.notes =
        st.notes ++ [addedNote st now₁ cwd content ts] := by
      simp only [add_note, hpres1, hempty ts hts, Bool.false_eq_true,
        if_false, addedNote]
    have hsessA : (add_note st now₁ cwd content (some ts)).2.sessions =
        (get_current_session st now₁ cwd).2.sessions := rfl
    have hsid2 : (get_current_session
        (add_note st now₁ cwd content (some ts)).2 now₂ cwd).1 =
        (get_current_session st now₁ cwd).1 := by
      rw [get_current_session_fst_congr _ ((get_current_session st now₁ cwd).2)
        now₂ cwd hsessA]
      exact get_current_session_twice st now₁ now₂ cwd hlt hnodup
    have hpres2 : (get_current_session
        (add_note st now₁ cwd content (some ts)).2 now₂ cwd).2.notes =
        (add_note st now₁ cwd content (some ts)).2.notes :=
      get_current_session_notes_eq _ now₂ cwd
    have hfilter : sessionNotes
        (get_current_session (add_note st now₁ cwd content (some ts)).2
          now₂ cwd).2
        (get_current_session (add_note st now₁ cwd content (some ts)).2
          now₂ cwd).1 =
        (st.notes.filter
          (fun x => x.session_id == (get_current_session st now₁ cwd).1)) ++
          [addedNote st now₁ cwd content ts] := by
      unfold sessionNotes
      rw [hpres2, htagsA, hsid2, List.filter_append]
      congr 1
      simp [addedNote]
    have hmem : addedNote st now₁ cwd content ts ∈
        (st.notes.filter
          (fun x => x.session_id == (get_current_session st now₁ cwd).1)) ++
          [addedNote st now₁ cwd content ts] :=
      List.mem_append_right _ (by simp)
    have hmax : ∀ m ∈ (st.notes.filter
        (fun x => x.session_id == (get_current_session st now₁ cwd).1)) ++
        [addedNote st now₁ cwd content ts],
        m ≠ addedNote st now₁ cwd content ts →
        m.created_at < (addedNote st now₁ cwd content ts).created_at := by
      intro m hm hne
      rcases List.mem_append.mp hm with hl | hr
      · exact hnotes m (List.mem_filter.mp hl).1
      · simp only [List.mem_singleton] at hr
        exact absurd hr hne
    have hhead := insertionSort_noteDesc_head hmem hmax
    show (((List.insertionSort noteDesc
        (sessionNotes
          (get_current_session (add_note st now₁ cwd content (some ts)).2
            now₂ cwd).2
          (get_current_session (add_note st now₁ cwd content (some ts)).2
            now₂ cwd).1)).take limit).map
        (fun n => (n.content, n.tags, n.created_at))).head? =
      some (content, some (json_dumps ts), now₁)
    rw [hfilter, List.head?_map, head?_take _ limit hlim, hhead]
    rfl
  · intro st now cwd content
    refine ⟨{ id := (get_current_session st now cwd).2.notes.length + 1,
              session_id := (get_current_session st now cwd).1,
              content := content, tags := none, created_at := now }, ?_, rfl⟩
    simp only [add_note, List.getLast?_concat]

/-- Witness for C8: from a fresh store, adding a note tagged
`["bug", "urgent"]` and querying notes returns that note first, with its
tags text parsing back to `["bug", "urgent"]` in order. -/
theorem note_tags_roundtrip_witness :
    (query_session_notes (add_note emptyStore 5 "/repo" "note text"
        (some ["bug", "urgent"])).2 9 "/repo" 10).head? =
      some ("note text", some (json_dumps ["bug", "urgent"]), 5) ∧
    json_loads_strlist (json_dumps ["bug", "urgent"]) =
      some ["bug", "urgent"] ∧
    json_dumps ["bug", "urgent"] = "[\"bug\", \"urgent\"]" := by
  have h := note_tags_roundtrip.2.1 emptyStore 5 9 "/repo" "note text"
    ["bug", "urgent"] 10 (by decide) (by decide)
    (by intro t ht; simp [activeSessionsFor, emptyStore] at ht)
    (by simp [emptyStore]) (by intro m hm; simp [emptyStore] at hm)
  exact ⟨h.1, h.2, rfl⟩
